import Mathlib

/-!
Verification development for the OSF project exporter
(`src/osfexport/exporter.py` and `src/osfexport/formatter.py`).

The Python source is shallowly embedded: pure helpers become Lean
functions, the network layer is abstracted into explicit "store"
functions handed to each fetcher, the unbounded `while`/recursion of the
paginated walks is driven by an explicit fuel argument (fuel exhaustion
returns `none`, the surrogate for non-termination), and Python `dict`s
are insertion-ordered association lists, matching CPython semantics.
Machine-level concerns (actual PDF layout, HTTP transport, timestamps)
are out of scope; the renderer is modelled by the ordered trace of
structural drawing events it performs.
-/

namespace OSFExport

/-! ## Python string primitives used by the exporter

`str.split(sep)` for a one-character separator: splits on every
occurrence; the result is always non-empty (`"".split('/') == ['']`).
`str.strip(chars)` removes leading and trailing occurrences. -/

/-- Python `s.split(c)` on a list of characters. Never returns `[]`. -/
def pySplit (c : Char) : List Char → List (List Char)
  | [] => [[]]
  | x :: xs =>
    match pySplit c xs with
    | [] => [[]]
    | y :: ys => if x = c then [] :: y :: ys else (x :: y) :: ys

/-- Python `s.strip(c)` for a single strip character. -/
def pyStrip (c : Char) (s : List Char) : List Char :=
  ((s.dropWhile (· = c)).reverse.dropWhile (· = c)).reverse

/-- Python `s.split(c)[-1]`: last piece of the split (total because
`pySplit` never returns the empty list). -/
def lastPiece (c : Char) (s : List Char) : List Char :=
  (pySplit c s).getLastD []

/-- `exporter.extract_project_id`: `url.strip("/").split("/")[-1]`.
A pure string operation with no failure path. -/
def extract_project_id (url : String) : String :=
  ⟨lastPiece '/' (pyStrip '/' url.toList)⟩

/-! ## `exporter.is_public`

The Python function issues a plain GET.  A completed response yields its
integer status; an `HTTPError` raised by `urlopen` is caught and bound to
`result`, and the function returns `result == 200` — an exception object
never compares equal to an integer, so any HTTP error status yields
`False`.  The transport outcome is the abstract input here. -/

/-- Outcome of `urlopen` on a GET: a completed response with an HTTP
status, or a raised `HTTPError` carrying its code. -/
inductive HttpOutcome where
  | ok (status : Nat)
  | httpError (code : Nat)
deriving DecidableEq, Repr

/-- `exporter.is_public` over the transport outcome.  In the source,
`result` is either the integer status or the caught `HTTPError` object;
`result == 200` is `False` for the exception object. -/
def is_public (o : HttpOutcome) : Bool :=
  match o with
  | .ok status => status == 200
  | .httpError _ => false

/-! ## File sizes (`explore_file_tree`)

`size_mb = size / (1024 ** 2)`; the table entry is
`str(round(size_mb, 2))`.  Sizes are modelled as exact rationals;
Python's `round` ties to even, and `str` of a float rounded to two
decimals drops a trailing zero digit (`str(2.1) == '2.1'`,
`str(2.0) == '2.0'`). -/

/-- Python `round(n / d)` to an integer for a fraction with positive
denominator: nearest, ties to even.  `Int.fdiv` is floor division, so
`r = n - f * d` is the fractional remainder in `[0, d)` and comparing
`2 * r` with `d` compares the fractional part with `1/2`. -/
def pyRoundFrac (n d : ℤ) : ℤ :=
  let f := Int.fdiv n d
  let r := n - f * d
  if 2 * r < d then f
  else if d < 2 * r then f + 1
  else if f % 2 = 0 then f else f + 1

/-- Decimal rendering of `n` hundredths (for `n ≥ 0`), following Python's
`str(round(x, 2))`: trailing zeros of the fractional part are dropped,
but at least one fractional digit is kept. -/
def hundredthsStr (n : ℤ) : String :=
  if n % 100 = 0 then toString (n / 100) ++ ".0"
  else if n % 10 = 0 then toString (n / 100) ++ "." ++ toString ((n / 10) % 10)
  else
    toString (n / 100) ++ "." ++
      (if n % 100 < 10 then "0" else "") ++ toString (n % 100)

/-- `str(round(size / (1024 ** 2), 2))` for a byte count given as an
exact rational: the hundredths of `size / 1024²` are rounded on the
exact fraction `(size.num * 100) / (size.den * 1024²)`. -/
def sizeMBStr (size : ℚ) : String :=
  hundredthsStr (pyRoundFrac (size.num * 100) (size.den * 1024 ^ 2))

/-! ## `exporter.get_project_data`

The materializer iterates `for idx, project in enumerate(nodes['data'])`
over a list that grows during iteration: each materialized node's
children (full node payloads from the children endpoint) are appended to
`nodes['data']`.  This is a work queue processed in order, with `idx`
counting every visited item (skipped duplicates included).  Per node it

* skips the node when its `id` was already materialized,
* sets `parent` to `relationships.parent.links.related.href.split('/')[-1]`
  when the parent relationship carries a `links` key, and to `None`
  otherwise, in which case `idx` is appended to `root_nodes`,
* records the children ids and appends the child payloads to the queue.

The per-node resource fetching (files, wikis, contributors, custom
metadata) fills other record fields and performs no control flow
relevant to ids, parents, roots or children, so records are projected to
those fields here. -/

/-- A node payload as consumed by the materializer loop: its `id`, the
`relationships.parent.links.related.href` when the parent relationship
has a `links` key, and the node payloads returned by its children
endpoint. -/
inductive Node where
  | mk (id : String) (parentHref : Option String) (children : List Node)

/-- Node id. -/
def Node.id : Node → String
  | .mk i _ _ => i

/-- Parent relationship href, when present. -/
def Node.parentHref : Node → Option String
  | .mk _ p _ => p

/-- Child node payloads. -/
def Node.children : Node → List Node
  | .mk _ _ c => c

/-- The value stored in a record's `parent` field.  The source stores a
Python value that is `None`, a string id, or (per the design spec) a
`(parent_title, parent_url)` tuple; the constructors cover that value
space. -/
inductive ParentField where
  | none
  | pid (id : String)
  | snapshot (title url : String)
deriving DecidableEq, Repr

/-- Whether a `parent` field holds a `(parent_title, parent_url)`
snapshot tuple. -/
def ParentField.isSnapshot : ParentField → Bool
  | .snapshot _ _ => true
  | _ => false

/-- The projection of one materialized project record: `metadata.id`,
the `parent` field, and the children id list. -/
structure Record where
  id : String
  parent : ParentField
  children : List String
deriving DecidableEq, Repr

/-- Materialization of a single node (the loop body of
`get_project_data`, projected to id/parent/children).  `parent` is the
last `/`-separated piece of the parent href when the parent relationship
has links, else `None`. -/
def materializeRecord (n : Node) : Record :=
  { id := n.id
    parent :=
      match n.parentHref with
      | some href => .pid ⟨lastPiece '/' href.toList⟩
      | none => .none
    children := n.children.map Node.id }

/-- Mutable state of the materializer loop: the enumerate counter, the
`projects` accumulator, the `root_nodes` index list and the
`added_node_ids` set. -/
structure MState where
  idx : Nat
  projects : List Record
  root_nodes : List Nat
  added : List String
deriving Repr

/-- Combined structural size of a queue of node payloads. -/
def queueSize (q : List Node) : Nat :=
  match q with
  | [] => 0
  | .mk _ _ cs :: rest => 1 + queueSize cs + queueSize rest

/-- The `for idx, project in enumerate(nodes['data'])` loop of
`get_project_data`: process the head of the queue, appending discovered
children to the end of the queue, with `idx` counting every visited
item. -/
def processNodes (q : List Node) (st : MState) : MState :=
  match q with
  | [] => st
  | n :: rest =>
    if n.id ∈ st.added then
      processNodes rest { st with idx := st.idx + 1 }
    else
      let rec' := materializeRecord n
      let roots' :=
        match n.parentHref with
        | some _ => st.root_nodes
        | none => st.root_nodes ++ [st.idx]
      processNodes (rest ++ n.children)
        { idx := st.idx + 1
          projects := st.projects ++ [rec']
          root_nodes := roots'
          added := st.added ++ [n.id] }
termination_by queueSize q
decreasing_by
  all_goals
    have happ : ∀ a b : List Node, queueSize (a ++ b) = queueSize a + queueSize b := by
      intro a b
      induction a with
      | nil => simp [queueSize]
      | cons x xs ih =>
        cases x
        simp only [List.cons_append, queueSize, ih]
        omega
    cases n
    simp only [queueSize, Node.children, happ]
    omega

/-- `get_project_data`, starting from the seed node list (the single
requested project, or the caller's root-node collection) and returning
`(projects, root_nodes)`. -/
def get_project_data (seed : List Node) : List Record × List Nat :=
  let st := processNodes seed ⟨0, [], [], []⟩
  (st.projects, st.root_nodes)

/-! ## `exporter.explore_file_tree`

The walk holds a `curr_link`, fetches the folder listing for that link,
first recurses into each subfolder's `files` link (accumulating their
files before this level's own), then pages through this level's file
listing starting again from `curr_link`, and finally follows the folder
listing's `next` link.  `try/except KeyError: pass` around the folder
loop means a folder entry without a `files` relationship ends that
page's folder recursion; a listing without a `data` key contributes
nothing.  The paginated link graph is an abstract store; the unbounded
link-following carries fuel, with `none` standing for a walk that never
terminates (a cyclic `next` chain). -/

/-- One folder entry of a folder listing:
`relationships.files.links.related.href`, absent when the lookup chain
raises `KeyError`. -/
structure FolderEntry where
  filesLink : Option String
deriving DecidableEq, Repr

/-- One page of a folder listing: the `data` entries (absent key modelled
as `none`) and the `links.next` cursor. -/
structure FoldersPage where
  data : Option (List FolderEntry)
  next : Option String
deriving DecidableEq, Repr

/-- One file of a file listing: `attributes.materialized_path`,
`attributes.size` in bytes (an exact rational standing for the JSON
number), and `links.download`. -/
structure FileRec where
  path : String
  size : ℚ
  download : String
deriving DecidableEq, Repr

/-- One page of a file listing. -/
structure FilesPage where
  data : Option (List FileRec)
  next : Option String
deriving DecidableEq, Repr

/-- The link-indexed responses the walk consumes (`MockAPIResponse.read`
keyed by `f"{curr_link}_folder"` / `f"{curr_link}_files"` in dry runs,
`call_api` with the folder/file filter otherwise). -/
structure FileStore where
  folders : String → FoldersPage
  files : String → FilesPage

/-- The file tuple written into `files_found`:
`(materialized_path, str(round(size / 1024**2, 2)), download)`. -/
def fileTuple (f : FileRec) : String × String × String :=
  (f.path, sizeMBStr f.size, f.download)

/-- The inner `while not is_last_page_files` loop: collect this level's
file pages starting at `link`, following `next` cursors. -/
def filePagesLoop (store : FileStore) : Nat → String → Option (List (String × String × String))
  | 0, _ => none
  | fuel + 1, link =>
    let page := store.files link
    let here := match page.data with
      | none => []
      | some fs => fs.map fileTuple
    match page.next with
    | none => some here
    | some l => (filePagesLoop store fuel l).map (here ++ ·)

mutual

/-- The `for folder in folders['data']` loop: recurse into each
subfolder's `files` link; an entry whose lookup chain raises `KeyError`
ends the loop (`except KeyError: pass`). -/
def subfoldersLoop (store : FileStore) :
    Nat → List FolderEntry → Option (List (String × String × String))
  | _, [] => some []
  | 0, _ :: _ => none
  | f + 1, e :: rest =>
    match e.filesLink with
    | none => some []
    | some l =>
        (folderPagesLoop store f l).bind (fun sub =>
          (subfoldersLoop store f rest).bind (fun tail =>
            some (sub ++ tail)))

/-- The outer `while not is_last_page_folders` loop of
`explore_file_tree`: subfolder recursion, then this level's file pages,
then the next folder page. -/
def folderPagesLoop (store : FileStore) :
    Nat → String → Option (List (String × String × String))
  | 0, _ => none
  | f + 1, link =>
    (match (store.folders link).data with
      | none => some []
      | some entries => subfoldersLoop store f entries).bind (fun subs =>
    (filePagesLoop store f link).bind (fun here =>
    (match (store.folders link).next with
      | none => some []
      | some l => folderPagesLoop store f l).bind (fun rest =>
    some (subs ++ here ++ rest))))

end

/-- `exporter.explore_file_tree` from a starting link, given fuel for
the link-following. -/
def explore_file_tree (store : FileStore) (fuel : Nat) (link : String) :
    Option (List (String × String × String)) :=
  folderPagesLoop store fuel link

/-! ## `exporter.explore_wikis`

Builds `wiki_content` as a Python dict: per page, per wiki entry,
`wiki_content[name] = content`; an existing key is overwritten in place
(last write wins) and a fresh key is appended, preserving insertion
order.  Then the `links.next` cursor is followed until `None`.  Each
wiki's content (fetched from its download link, or the mock keyed by its
name) is carried on the entry. -/

/-- One wiki of a wiki-index page, with the content its download link
serves. -/
structure WikiEntry where
  name : String
  content : String
deriving DecidableEq, Repr

/-- One page of the wiki-index collection. -/
structure WikiPage where
  data : List WikiEntry
  next : Option String
deriving DecidableEq, Repr

/-- Python dict assignment `d[k] = v` on an insertion-ordered
association list: overwrite the (unique) existing entry in place when
the key exists, append otherwise. -/
def dictInsert : List (String × String) → String → String → List (String × String)
  | [], k, v => [(k, v)]
  | p :: rest, k, v =>
    if p.1 = k then (k, v) :: rest else p :: dictInsert rest k v

/-- Python dict lookup `d[k]` (first — and only — entry for `k`). -/
def dictFind (m : List (String × String)) (k : String) : Option String :=
  (m.find? (fun p => p.1 = k)).map (·.2)

/-- The `while not is_last_page` loop of `explore_wikis`. -/
def wikiLoop (store : String → WikiPage) :
    Nat → WikiPage → List (String × String) → Option (List (String × String))
  | fuel, page, acc =>
    let acc' := page.data.foldl (fun m e => dictInsert m e.name e.content) acc
    match page.next with
    | none => some acc'
    | some l =>
      match fuel with
      | 0 => none
      | f + 1 => wikiLoop store f (store l) acc'

/-- `exporter.explore_wikis`: read the first page, then loop. -/
def explore_wikis (store : String → WikiPage) (fuel : Nat) (firstPage : WikiPage) :
    Option (List (String × String)) :=
  wikiLoop store fuel firstPage []

/-- The concatenation of the wiki entries on every page the loop visits
(page order, within-page order), for relating the built dict to its
input stream. -/
def wikiEntriesChain (store : String → WikiPage) :
    Nat → WikiPage → Option (List WikiEntry)
  | fuel, page =>
    match page.next with
    | none => some page.data
    | some l =>
      match fuel with
      | 0 => none
      | f + 1 => (wikiEntriesChain store f (store l)).map (page.data ++ ·)

/-- The content of the last entry for `k` in an entry stream, if any. -/
def lastContent (es : List WikiEntry) (k : String) : Option String :=
  (es.reverse.find? (fun e => e.name = k)).map (·.content)

/-! ## `formatter.write_pdf`

The renderer walks the record list from a root index, writing one body
per node (`write_project_body`) and recursing into children
(`explore_project_tree`), threading one growing PDF object.  Actual
text layout is delegated to the PDF library; what is modelled is the
ordered trace of structural drawing operations, plus the destructive
`project['metadata'].pop('url', '')` that the body performs on the
shared record, threaded back into the record list.  Failure of a Python
`dict[key]` access is an `Except.error` carrying the missing key;
recursion depth is fuel (`RecursionError` surrogate). -/

/-- A metadata value: a scalar (strings and booleans rendered by the
f-string) or a list of keyed items (e.g. `funders`), which
`write_list_section` renders as a labelled sub-list. -/
inductive MetaVal where
  | s (v : String)
  | l (items : List (List (String × String)))
deriving DecidableEq, Repr

/-- A project record as the renderer consumes it.  (The record's
`parent` entry is never read by the renderer and is omitted.) -/
structure Project where
  metadata : List (String × MetaVal)
  contributors : List (String × Bool × String)
  files : List (String × Option String × Option String)
  wikis : List (String × String)
  children : List String
deriving DecidableEq, Repr

/-- Ordered structural drawing events of the renderer. -/
inductive Ev where
  | addPage
  | parentTitleLine (t : String)
  | mainProjectUrl (u : String)
  | titleLine (t : String)
  | qr (payload : String)
  | componentUrl (u : String)
  | sectionMetadata
  | metaLine (k : String) (v : String)
  | metaListHeader (k : String)
  | metaItemLine (k : String) (v : String)
  | sectionContributors
  | contribRow (name : String) (bib : String) (link : String)
  | sectionFiles
  | fileRow (path : String) (size : String) (link : String)
  | noFiles
  | sectionWiki
  | wikiHeader (n : String)
  | wikiHtml (content : String)
deriving DecidableEq, Repr

/-- The custom `PDF` object's mutable attributes used by the body
writer: `parent_title` and `parent_url` fixed at construction from the
root's metadata, and the current `url` used for QR payloads. -/
structure PdfState where
  parent_title : String
  parent_url : String
  url : String
deriving DecidableEq, Repr

/-- `project['metadata'][k]` as an optional lookup. -/
def metaFindVal (p : Project) (k : String) : Option MetaVal :=
  (p.metadata.find? (fun q => q.1 = k)).map (·.2)

/-- Direct `project['metadata'][k]` access on a string-valued field
(`title`, `url`, `id` are strings in every record this program builds);
a missing key raises `KeyError`. -/
def metaGetS (p : Project) (k : String) : Except String String :=
  match metaFindVal p k with
  | some (MetaVal.s v) => Except.ok v
  | some (MetaVal.l _) => Except.ok ""
  | none => Except.error ("KeyError: " ++ k)

/-- `project['metadata'].pop(k, ...)`: the record with the entry
removed. -/
def metaRemove (p : Project) (k : String) : Project :=
  { p with metadata := p.metadata.filter (fun q => ¬ q.1 = k) }

/-- Events of the metadata section: one line per scalar field, a header
plus one line per item entry for list fields (`write_list_section`). -/
def metaEvs : List (String × MetaVal) → List Ev
  | [] => []
  | (k, MetaVal.s v) :: rest => Ev.metaLine k v :: metaEvs rest
  | (k, MetaVal.l items) :: rest =>
    Ev.metaListHeader k ::
      ((items.map (fun item => item.map (fun q => Ev.metaItemLine q.1 q.2))).flatten
        ++ metaEvs rest)

/-- Contributor table rows: the boolean bibliographic flag renders as
`Yes`/`No`, the profile URL as a linked cell. -/
def contribEvs (cs : List (String × Bool × String)) : List Ev :=
  cs.map (fun c => Ev.contribRow c.1 (if c.2.1 then "Yes" else "No") c.2.2)

/-- File table rows: a `None` size or download link renders as `N/A`. -/
def fileEvs (fs : List (String × Option String × Option String)) : List Ev :=
  fs.map (fun f => Ev.fileRow f.1 (f.2.1.getD "N/A") (f.2.2.getD "N/A"))

/-- Wiki section events: per wiki a heading and its rendered markup,
with a fresh page between consecutive wikis. -/
def wikiEvs : List (String × String) → List Ev
  | [] => []
  | [(n, c)] => [Ev.wikiHeader n, Ev.wikiHtml c]
  | (n, c) :: rest => Ev.wikiHeader n :: Ev.wikiHtml c :: Ev.addPage :: wikiEvs rest

/-- `formatter.write_pdf.write_project_body`: one node's body.  Returns
the event trace, the updated PDF attributes, and the record as mutated
by `metadata.pop('url', '')`. -/
def write_project_body (pdf : PdfState) (project : Project) :
    Except String (List Ev × PdfState × Project) := do
  let header1 := if pdf.parent_title = "" then [] else [Ev.parentTitleLine pdf.parent_title]
  let header2 := if pdf.parent_url = "" then [] else [Ev.mainProjectUrl pdf.parent_url]
  let title ← metaGetS project "title"
  let titleEvs := if pdf.parent_title = title then [] else [Ev.titleLine title]
  let url :=
    match metaFindVal project "url" with
    | some (MetaVal.s v) => v
    | some (MetaVal.l _) => ""
    | none => ""
  let project1 := metaRemove project "url"
  let compEvs := if url ≠ "" ∧ pdf.parent_url ≠ url then [Ev.componentUrl url] else []
  Except.ok
    (Ev.addPage ::
      (header1 ++ header2 ++ titleEvs ++ [Ev.qr url] ++ compEvs
        ++ (Ev.sectionMetadata :: metaEvs project1.metadata)
        ++ (Ev.sectionContributors :: contribEvs project.contributors)
        ++ (Ev.sectionFiles ::
              (if project.files.length > 0 then fileEvs project.files else [Ev.noFiles]))
        ++ (Ev.sectionWiki :: wikiEvs project.wikis)),
     { pdf with url := url }, project1)

/-- The generator `next((p for p in projects if p['metadata']['id'] == child_id), None)`,
returning the matching position; scanning a record without an `id`
raises `KeyError`. -/
def findChildIdx : List Project → String → Nat → Except String (Option Nat)
  | [], _, _ => Except.ok none
  | p :: rest, cid, i =>
    match metaFindVal p "id" with
    | none => Except.error ("KeyError: " ++ "id")
    | some v => if v = MetaVal.s cid then Except.ok (some i) else findChildIdx rest cid (i + 1)

mutual

/-- `formatter.write_pdf.explore_project_tree`: write this node's body,
then recurse into each child found in the record list, threading the PDF
and the (mutated) record list. -/
def explore_project_tree (fuel : Nat) (projects : List Project) (idx : Nat)
    (pdfOpt : Option PdfState) : Except String (List Ev × PdfState × List Project) :=
  match fuel with
  | 0 => Except.error "RecursionError"
  | f + 1 => do
    let project ← match projects.get? idx with
      | some p => Except.ok p
      | none => Except.error "IndexError"
    let pdf ← match pdfOpt with
      | some p => Except.ok p
      | none => do
          let t ← metaGetS project "title"
          let u ← metaGetS project "url"
          Except.ok (⟨t, u, ""⟩ : PdfState)
    let (evs, pdf1, project1) ← write_project_body pdf project
    let projects1 := projects.set idx project1
    childLoop f project1.children (evs, pdf1, projects1)

/-- The `for child_id in children` loop of `explore_project_tree`: a
child id absent from the record list is skipped. -/
def childLoop : Nat → List String → (List Ev × PdfState × List Project) →
    Except String (List Ev × PdfState × List Project)
  | _, [], st => Except.ok st
  | 0, _ :: _, _ => Except.error "RecursionError"
  | fuel + 1, cid :: rest, (evs, pdf, projects) => do
    let jOpt ← findChildIdx projects cid 0
    match jOpt with
    | none => childLoop fuel rest (evs, pdf, projects)
    | some j => do
        let (evs2, pdf2, projects2) ← explore_project_tree fuel projects j (some pdf)
        childLoop fuel rest (evs ++ evs2, pdf2, projects2)

end

/-- `formatter.write_pdf`: index the root, read its title (used for the
output filename), and run the tree walk with a fresh PDF.  The output
path and timestamp are I/O and are not modelled; the result is the event
trace and the record list as mutated by rendering. -/
def write_pdf (fuel : Nat) (projects : List Project) (root_idx : Nat) :
    Except String (List Ev × List Project) := do
  let curr ← match projects.get? root_idx with
    | some p => Except.ok p
    | none => Except.error "IndexError"
  let _title ← metaGetS curr "title"
  let (evs, _pdf, projects1) ← explore_project_tree fuel projects root_idx none
  Except.ok (evs, projects1)

/-- Rendering the same `(records, rootIndex)` pair twice in sequence,
the second call seeing whatever the first left in the record list. -/
def write_pdf_twice (fuel : Nat) (projects : List Project) (root_idx : Nat) :
    Except String (List Ev × List Ev) := do
  let (evs1, projects1) ← write_pdf fuel projects root_idx
  let (evs2, _) ← write_pdf fuel projects1 root_idx
  Except.ok (evs1, evs2)

/-- The trace split into pages: each `addPage` event starts a new
page. -/
def pagesAux : List Ev → List Ev → List (List Ev)
  | [], cur => [cur]
  | Ev.addPage :: rest, cur => cur :: pagesAux rest []
  | e :: rest, cur => pagesAux rest (cur ++ [e])

/-- Pages of a trace that begins with an `addPage` (drops the empty
pre-first-page segment). -/
def pagesOf (evs : List Ev) : List (List Ev) :=
  (pagesAux evs []).drop 1

/-- Whether an event is a `Component URL` reference line. -/
def Ev.isComponentUrl : Ev → Bool
  | .componentUrl _ => true
  | _ => false

/-- Loop invariant of the materializer: materialized ids are distinct,
each of them is registered in `added_node_ids`, and every record arises
by materializing some node payload. -/
def MInv (st : MState) : Prop :=
  (st.projects.map Record.id).Nodup ∧
  (∀ i ∈ st.projects.map Record.id, i ∈ st.added) ∧
  (∀ r ∈ st.projects, ∃ n : Node, r = materializeRecord n)

/-! ## Concrete fixtures used by the claim instances -/

/-- A seed in which the API hands back the root `x` twice before the
root `y` (the duplicate situation `added_node_ids` exists to absorb). -/
def seedDupRoots : List Node :=
  [Node.mk "x" none [], Node.mk "x" none [], Node.mk "y" none []]

/-- A single-project seed whose parent link points at the node `p`,
which is not part of the run (a component export with a foreign
parent). -/
def seedForeignParent : List Node :=
  [Node.mk "a" (some "nodes/p") []]

/-- The folder tree of the depth-first scenario: `tf1` holds file `A`
and the subfolder `tf1/tf2`, which holds file `B` sized 2,202,009.6
bytes. -/
def tfStore : FileStore :=
  { folders := fun l =>
      if l = "tf1" then ⟨some [⟨some "tf1/tf2"⟩], none⟩
      else ⟨some [], none⟩
    files := fun l =>
      if l = "tf1" then ⟨some [⟨"/tf1/A.txt", mkRat 1024 1, "dlA"⟩], none⟩
      else if l = "tf1/tf2" then ⟨some [⟨"/tf1/tf2/B.txt", mkRat 11010048 5, "dlB"⟩], none⟩
      else ⟨some [], none⟩ }

/-- First wiki-index page: `dup` and `solo`, with a next cursor. -/
def wikiPage1 : WikiPage :=
  ⟨[⟨"dup", "first version"⟩, ⟨"solo", "solo content"⟩], some "p2"⟩

/-- Second wiki-index page: `dup` again, with fresher content. -/
def wikiPage2 : WikiPage :=
  ⟨[⟨"dup", "second version"⟩], none⟩

/-- Wiki page store following the `next` cursor of `wikiPage1`. -/
def wikiStore : String → WikiPage :=
  fun _ => wikiPage2

/-- A root record family for the renderer: title, id `r`, url, one
child id `c`. -/
def rootProj (t u : String) : Project :=
  { metadata := [("title", MetaVal.s t), ("id", MetaVal.s "r"), ("url", MetaVal.s u)]
    contributors := []
    files := []
    wikis := []
    children := ["c"] }

/-- A child record family for the renderer: title, id `c`, url, no
children. -/
def childProj (t u : String) : Project :=
  { metadata := [("title", MetaVal.s t), ("id", MetaVal.s "c"), ("url", MetaVal.s u)]
    contributors := []
    files := []
    wikis := []
    children := [] }

theorem processNodes_inv (q : List Node) (st : MState) (h : MInv st) :
    MInv (processNodes q st) := by
  induction q, st using processNodes.induct with
  | case1 st =>
    simpa [processNodes] using h
  | case2 st n rest hmem ih =>
    rw [processNodes, if_pos hmem]
    exact ih h
  | case3 st n rest hmem recv rootsv ih =>
    rw [processNodes, if_neg hmem]
    refine ih ?_
    obtain ⟨h1, h2, h3⟩ := h
    refine ⟨?_, ?_, ?_⟩
    · simp only [List.map_append, List.map_cons, List.map_nil]
      rw [List.nodup_append]
      refine ⟨h1, List.nodup_singleton _, ?_⟩
      intro a ha hb
      have hb' : a = n.id := List.mem_singleton.mp hb
      exact hmem (hb' ▸ h2 a ha)
    · intro i hi
      simp only [List.map_append, List.map_cons, List.map_nil,
        List.mem_append, List.mem_singleton] at hi
      rcases hi with hi | hi
      · exact List.mem_append_left _ (h2 i hi)
      · exact List.mem_append_right _
          (by rw [hi]; exact List.mem_singleton.mpr rfl)
    · intro r hr
      rcases List.mem_append.mp hr with hr | hr
      · exact h3 r hr
      · exact ⟨n, (List.mem_singleton.mp hr)⟩

theorem get_project_data_inv (seed : List Node) :
    MInv (processNodes seed ⟨0, [], [], []⟩) :=
  processNodes_inv seed ⟨0, [], [], []⟩ (by simp [MInv])

/-! ## Claim theorems -/

/-- Claim C1: in every materialization run of `get_project_data`, no two
records in the returned `projects` list share a `metadata.id` — a node
whose id was already materialized is skipped and produces no second
record. -/
theorem get_project_data_dedup (seed : List Node) :
    ((get_project_data seed).1.map Record.id).Nodup :=
  (get_project_data_inv seed).1

/-- Claim C2 is false of the code (code-bug exhibit): `root_nodes`
collects the `enumerate` index over the traversed node stream, which
stops tracking positions in `projects` as soon as a duplicate is
skipped.  Seeding the run with `x, x, y` (all parentless) returns two
records, both with `parent = None`, but `root_nodes = [0, 2]`: the
second root index is not a valid position in the returned list, even
though `write_pdf` consumes these indices as `projects[root_idx]`. -/
theorem root_nodes_outrun_projects :
    (get_project_data seedDupRoots).2 = [0, 2] ∧
    (get_project_data seedDupRoots).1.length = 2 ∧
    (get_project_data seedDupRoots).1.map Record.parent =
      [ParentField.none, ParentField.none] := by
  refine ⟨?_, ?_, ?_⟩ <;>
    simp [seedDupRoots, get_project_data, processNodes, materializeRecord,
      Node.id, Node.parentHref, Node.children]

/-- Claim C4 (counterexample): materializing a node whose parent link
points at `p`, with `p` not part of the run, stores the id string `"p"`
in the record's `parent` field — never the `(parent_title, parent_url)`
snapshot tuple the claim requires for a foreign parent. -/
theorem parent_field_never_snapshot_cex :
    (get_project_data seedForeignParent).1 =
      [{ id := "a", parent := ParentField.pid "p", children := [] }] ∧
    (get_project_data seedForeignParent).1.map (fun r => r.parent.isSnapshot) =
      [false] := by
  refine ⟨?_, ?_⟩ <;>
    simp [seedForeignParent, get_project_data, processNodes, materializeRecord,
      Node.id, Node.parentHref, Node.children, lastPiece, pySplit,
      ParentField.isSnapshot]

/-- Claim C4 (amended): every record of a run arises by materializing
some node payload; when that node carries a parent relationship link the
record's `parent` field holds the link's last `/`-separated piece (the
parent's identifier) whether or not the parent is materialized in the
same run, when it carries none the field is `None`, and a
`(parent_title, parent_url)` snapshot is never produced. -/
theorem parent_field_amended (seed : List Node) (r : Record)
    (hr : r ∈ (get_project_data seed).1) :
    r.parent.isSnapshot = false ∧
    ∃ n : Node, r = materializeRecord n ∧
      (∀ s, n.parentHref = some s → r.parent = ParentField.pid ⟨lastPiece '/' s.toList⟩) ∧
      (n.parentHref = none → r.parent = ParentField.none) := by
  obtain ⟨n, hn⟩ := (get_project_data_inv seed).2.2 r hr
  subst hn
  refine ⟨?_, n, rfl, ?_, ?_⟩
  · cases hp : n.parentHref <;>
      simp [materializeRecord, hp, ParentField.isSnapshot]
  · intro s hp
    simp [materializeRecord, hp]
  · intro hp
    simp [materializeRecord, hp]

/-- Claim C4 (amended) at the foreign-parent fixture: the record
materialized from the node with parent link `nodes/p` is in the run and
its parent field is not a snapshot. -/
theorem parent_field_amended_witness :
    ({ id := "a", parent := ParentField.pid "p", children := [] } : Record) ∈
      (get_project_data seedForeignParent).1 ∧
    ({ id := "a", parent := ParentField.pid "p", children := [] } : Record).parent.isSnapshot
      = false := by
  have hm : ({ id := "a", parent := ParentField.pid "p", children := [] } : Record) ∈
      (get_project_data seedForeignParent).1 := by
    simp [seedForeignParent, get_project_data, processNodes, materializeRecord,
      Node.id, Node.parentHref, Node.children, lastPiece, pySplit]
  exact ⟨hm, (parent_field_amended seedForeignParent _ hm).1⟩

/-- Claim C5: `explore_file_tree` collects depth-first — at every folder
level, whatever the subfolder recursion finds (`sub`) precedes the
current folder's own file pages (`own`) in the returned list, which the
next folder pages' yield (`rest`) then follows. -/
theorem explore_file_tree_subfolders_first
    (store : FileStore) (f : Nat) (link : String)
    (sub own rest res : List (String × String × String))
    (hsub : (match (store.folders link).data with
             | none => some []
             | some es => subfoldersLoop store f es) = some sub)
    (hown : filePagesLoop store f link = some own)
    (hrest : (match (store.folders link).next with
              | none => some []
              | some l => folderPagesLoop store f l) = some rest)
    (hres : explore_file_tree store (f + 1) link = some res) :
    res = sub ++ own ++ rest := by
  unfold explore_file_tree folderPagesLoop at hres
  rw [hsub, hown, hrest] at hres
  simp [Option.bind] at hres
  rw [List.append_assoc]
  exact hres.symm

/-- Claim C5 at the `tf1/{A}, tf1/tf2/{B}` fixture: exploring from
`tf1` yields `B` (the deep file) before `A` (the shallow one). -/
theorem explore_file_tree_subfolders_first_witness :
    explore_file_tree tfStore 9 "tf1" =
      some [("/tf1/tf2/B.txt", "2.1", "dlB"), ("/tf1/A.txt", "0.0", "dlA")] ∧
    ([("/tf1/tf2/B.txt", "2.1", "dlB"), ("/tf1/A.txt", "0.0", "dlA")] :
        List (String × String × String)) =
      [("/tf1/tf2/B.txt", "2.1", "dlB")] ++ [("/tf1/A.txt", "0.0", "dlA")] ++ [] :=
  ⟨by decide,
   explore_file_tree_subfolders_first tfStore 8 "tf1"
     [("/tf1/tf2/B.txt", "2.1", "dlB")] [("/tf1/A.txt", "0.0", "dlA")] []
     [("/tf1/tf2/B.txt", "2.1", "dlB"), ("/tf1/A.txt", "0.0", "dlA")]
     (by decide) (by decide) (by decide) (by decide)⟩

/-- Claim C8: a file whose size attribute is 2,202,009.6 bytes
(`11010048/5`) yields a file tuple whose size component is `"2.1"`: the
byte count divided by `1024 * 1024`, rounded to two decimal places,
converted to a string. -/
theorem file_size_two_decimal_mb :
    explore_file_tree tfStore 9 "tf1" =
      some [("/tf1/tf2/B.txt", "2.1", "dlB"), ("/tf1/A.txt", "0.0", "dlA")] ∧
    sizeMBStr (mkRat 11010048 5) = "2.1" :=
  ⟨by decide, by decide⟩

/-- Claim C10: `is_public` is total on the GET outcome — an `HTTPError`
is caught, never propagated — and returns `True` exactly when the
request completes with HTTP status 200; any HTTP error status yields
`False` (the caught exception object never equals `200`). -/
theorem is_public_true_iff_status_200 (o : HttpOutcome) :
    is_public o = true ↔ o = HttpOutcome.ok 200 := by
  cases o with
  | ok s => simp [is_public]
  | httpError c => simp [is_public]

/-- Claim C3 is false of the code (code-bug exhibit): the renderer's
`metadata.pop('url', '')` mutates the shared record, so after a first
`write_pdf` call the record list has lost the root's `url`, and
rendering the same `(records, rootIndex)` pair a second time does not
produce an identical document — it raises `KeyError` while constructing
the second PDF from `project['metadata']['url']`. -/
theorem write_pdf_twice_keyerror :
    (write_pdf 9 [rootProj "R" "uR"] 0).toOption.map
        (fun res => res.2.map (fun p => metaFindVal p "url")) = some [none] ∧
    write_pdf_twice 9 [rootProj "R" "uR"] 0 = Except.error ("KeyError: " ++ "url") :=
  ⟨rfl, rfl⟩

theorem pySplit_ne_nil (c : Char) (l : List Char) : pySplit c l ≠ [] := by
  cases l with
  | nil => simp [pySplit]
  | cons x xs =>
    rw [pySplit]
    cases pySplit c xs with
    | nil => simp
    | cons y ys => by_cases h : x = c <;> simp [h]

theorem pySplit_no_sep (c : Char) (l : List Char) (h : c ∉ l) : pySplit c l = [l] := by
  induction l with
  | nil => rfl
  | cons x xs ih =>
    rw [pySplit]
    have hx : ¬x = c := fun he => h (he ▸ List.mem_cons_self x xs)
    have hxs : c ∉ xs := fun hm => h (List.mem_cons_of_mem x hm)
    rw [ih hxs]
    simp [hx]

theorem two_le_pySplit_length (c : Char) (l : List Char) (h : c ∈ l) :
    2 ≤ (pySplit c l).length := by
  induction l with
  | nil => cases h
  | cons x xs ih =>
    rw [pySplit]
    cases hr : pySplit c xs with
    | nil => exact absurd hr (pySplit_ne_nil c xs)
    | cons y ys =>
      by_cases hx : x = c
      · simp [hx]
      · have hm : c ∈ xs := by
          rcases List.mem_cons.mp h with he | hm
          · exact absurd he.symm hx
          · exact hm
        have h2 := ih hm
        rw [hr] at h2
        simp [hx] at h2 ⊢
        omega

theorem lastPiece_append_sep (c : Char) (l2 : List Char) (h : c ∉ l2) :
    ∀ l1 : List Char, lastPiece c (l1 ++ c :: l2) = l2 := by
  intro l1
  induction l1 with
  | nil =>
    simp only [List.nil_append, lastPiece, pySplit, pySplit_no_sep c l2 h]
    simp
  | cons x xs ih =>
    rw [List.cons_append, lastPiece, pySplit]
    cases hr : pySplit c (xs ++ c :: l2) with
    | nil => exact absurd hr (pySplit_ne_nil c _)
    | cons y ys =>
      have hlen : 2 ≤ (pySplit c (xs ++ c :: l2)).length :=
        two_le_pySplit_length c _ (by simp)
      rw [hr] at hlen
      cases ys with
      | nil => simp at hlen
      | cons z zs =>
        rw [lastPiece, hr] at ih
        by_cases hx : x = c <;> simp [hx, List.getLastD_cons] at ih ⊢ <;> exact ih

theorem pyStrip_sandwich (c f0 : Char) (fr pl : List Char)
    (h0 : ¬f0 = c) (hpl : pl ≠ []) (hpc : c ∉ pl) :
    pyStrip c ((f0 :: fr) ++ pl ++ [c]) = (f0 :: fr) ++ pl := by
  obtain ⟨z, zs, hz⟩ : ∃ z zs, pl.reverse = z :: zs := by
    cases hrev : pl.reverse with
    | nil => exact absurd (by simpa using congrArg List.reverse hrev) hpl
    | cons z zs => exact ⟨z, zs, rfl⟩
  have hzc : ¬z = c := by
    intro he
    apply hpc
    have hmem : z ∈ pl.reverse := by rw [hz]; exact List.mem_cons_self z zs
    rw [← he]
    exact List.mem_reverse.mp hmem
  have hpl2 : zs.reverse ++ [z] = pl := by
    have hc := congrArg List.reverse hz
    simpa using hc.symm
  unfold pyStrip
  have hform : (f0 :: fr) ++ pl ++ [c] = f0 :: (fr ++ pl ++ [c]) := by simp
  rw [hform, List.dropWhile_cons_of_neg (by simpa using h0)]
  have hrev : (f0 :: (fr ++ pl ++ [c])).reverse = c :: (pl.reverse ++ (fr.reverse ++ [f0])) := by
    simp
  rw [hrev, List.dropWhile_cons_of_pos (by simp), hz, List.cons_append,
    List.dropWhile_cons_of_neg (by simpa using hzc)]
  rw [← List.cons_append, ← List.append_assoc]
  rw [List.reverse_append]
  simp [hpl2]

/-- Claim C9 (counterexample): `extract_project_id` surfaces no error on
input from which no project identifier can be extracted — it returns
normally: the empty string for `""`, and the host fragment `"osf.io"`
for the id-less URL `"https://osf.io/"`, which then flows on to the
network layer. -/
theorem extract_project_id_no_error_cex :
    extract_project_id "" = "" ∧ extract_project_id "https://osf.io/" = "osf.io" :=
  ⟨rfl, by decide⟩

/-- Claim C9 (amended): `extract_project_id` is a pure, total string
operation — no side effects and no network activity — that never raises:
on a well-formed project URL it returns the project id (the last
`/`-separated segment after stripping surrounding slashes), and on input
without an extractable identifier, such as `""`, it still returns
normally rather than surfacing an error. -/
theorem extract_project_id_amended (pid : String)
    (h1 : pid ≠ "") (h2 : ('/' : Char) ∉ pid.toList) :
    extract_project_id ("https://osf.io/" ++ pid ++ "/") = pid ∧
    extract_project_id "" = "" := by
  refine ⟨?_, rfl⟩
  obtain ⟨pl⟩ := pid
  have hpl : pl ≠ [] := fun he => h1 (by rw [he])
  have h2' : ('/' : Char) ∉ pl := h2
  show (⟨lastPiece '/' (pyStrip '/' ("https://osf.io/" ++ (⟨pl⟩ : String) ++ "/").toList)⟩ : String)
      = ⟨pl⟩
  have hlist : ("https://osf.io/" ++ (⟨pl⟩ : String) ++ "/").toList
      = ('h' :: "ttps://osf.io/".toList) ++ pl ++ ['/'] := by
    simp [String.toList]
  rw [hlist, pyStrip_sandwich '/' 'h' _ pl (by decide) hpl h2']
  have hfront : ('h' :: "ttps://osf.io/".toList) ++ pl = "https://osf.io".toList ++ '/' :: pl := by
    have hch : ('h' :: "ttps://osf.io/".toList) = "https://osf.io".toList ++ ['/'] := by decide
    rw [hch, List.append_assoc]
    simp
  rw [hfront, lastPiece_append_sep '/' pl h2' _]

/-- Claim C9 (amended) at a concrete well-formed URL: the id `abc12` is
extracted, and the empty input returns normally. -/
theorem extract_project_id_amended_witness :
    extract_project_id "https://osf.io/abc12/" = "abc12" ∧
    extract_project_id "" = "" :=
  extract_project_id_amended "abc12" (by decide) (by decide)

theorem dictFind_cons (x : String × String) (l : List (String × String)) (k : String) :
    dictFind (x :: l) k = if x.1 = k then some x.2 else dictFind l k := by
  by_cases h : x.1 = k <;> simp [dictFind, List.find?, h]

theorem dictFind_dictInsert (m : List (String × String)) (k v k' : String) :
    dictFind (dictInsert m k v) k' = if k' = k then some v else dictFind m k' := by
  induction m with
  | nil =>
    by_cases h : k' = k <;> simp [dictInsert, dictFind_cons, dictFind, h, eq_comm]
  | cons p rest ih =>
    by_cases hpk : p.1 = k
    · by_cases h : k' = k <;>
        simp [dictInsert, hpk, dictFind_cons, h, eq_comm, dictFind]
    · rw [dictInsert, if_neg hpk, dictFind_cons, dictFind_cons, ih]
      by_cases h1 : p.1 = k' <;> by_cases h2 : k' = k <;> simp [h1, h2]
      · exact absurd (h1.trans h2) hpk
      · exact fun hx => absurd hx hpk

theorem mem_keys_dictInsert (m : List (String × String)) (k v a : String) :
    a ∈ (dictInsert m k v).map Prod.fst ↔ a ∈ m.map Prod.fst ∨ a = k := by
  induction m with
  | nil => simp [dictInsert]
  | cons p rest ih =>
    by_cases hpk : p.1 = k
    · subst hpk
      simp [dictInsert]
      tauto
    · simp [dictInsert, hpk, ih]
      tauto

theorem keys_nodup_dictInsert (m : List (String × String)) (k v : String)
    (h : (m.map Prod.fst).Nodup) :
    ((dictInsert m k v).map Prod.fst).Nodup := by
  induction m with
  | nil => simp [dictInsert]
  | cons p rest ih =>
    rw [List.map_cons, List.nodup_cons] at h
    by_cases hpk : p.1 = k
    · subst hpk
      have he : dictInsert (p :: rest) p.1 v = (p.1, v) :: rest := by
        simp [dictInsert]
      rw [he, List.map_cons, List.nodup_cons]
      exact h
    · simp only [dictInsert, if_neg hpk, List.map_cons, List.nodup_cons]
      refine ⟨?_, ih h.2⟩
      intro hmem
      rcases (mem_keys_dictInsert rest k v p.1).mp hmem with hc | hc
      · exact h.1 hc
      · exact hpk hc

theorem lastContent_cons (e : WikiEntry) (es : List WikiEntry) (k : String) :
    lastContent (e :: es) k =
      match lastContent es k with
      | some c => some c
      | none => if e.name = k then some e.content else none := by
  simp only [lastContent, List.reverse_cons, List.find?_append]
  cases hfind : es.reverse.find? (fun x => x.name = k) with
  | none =>
    by_cases h : e.name = k <;> simp [Option.orElse, List.find?, h]
  | some x =>
    simp [Option.orElse]

theorem dictFind_foldl (es : List WikiEntry) :
    ∀ (acc : List (String × String)) (k : String),
      dictFind (es.foldl (fun d e => dictInsert d e.name e.content) acc) k =
        match lastContent es k with
        | some c => some c
        | none => dictFind acc k := by
  induction es with
  | nil =>
    intro acc k
    simp [lastContent]
  | cons e es ih =>
    intro acc k
    rw [List.foldl_cons, ih, lastContent_cons]
    cases lastContent es k with
    | some c => rfl
    | none =>
      rw [dictFind_dictInsert]
      by_cases h : k = e.name <;> simp [h, eq_comm]

theorem keys_nodup_foldl (es : List WikiEntry) :
    ∀ acc : List (String × String), (acc.map Prod.fst).Nodup →
      ((es.foldl (fun d e => dictInsert d e.name e.content) acc).map Prod.fst).Nodup := by
  induction es with
  | nil => intro acc h; simpa using h
  | cons e es ih =>
    intro acc h
    rw [List.foldl_cons]
    exact ih _ (keys_nodup_dictInsert _ _ _ h)

theorem wikiLoop_chain (store : String → WikiPage) :
    ∀ (fuel : Nat) (page : WikiPage) (acc m : List (String × String)) (es : List WikiEntry),
      wikiLoop store fuel page acc = some m →
      wikiEntriesChain store fuel page = some es →
      m = es.foldl (fun d e => dictInsert d e.name e.content) acc := by
  intro fuel
  induction fuel with
  | zero =>
    intro page acc m es hm hes
    cases hn : page.next with
    | none =>
      rw [wikiLoop] at hm; rw [hn] at hm; simp at hm
      rw [wikiEntriesChain] at hes; rw [hn] at hes; simp at hes
      subst hes
      exact hm.symm
    | some l =>
      rw [wikiLoop] at hm; rw [hn] at hm; simp at hm
  | succ f ih =>
    intro page acc m es hm hes
    cases hn : page.next with
    | none =>
      rw [wikiLoop] at hm; rw [hn] at hm; simp at hm
      rw [wikiEntriesChain] at hes; rw [hn] at hes; simp at hes
      subst hes
      exact hm.symm
    | some l =>
      rw [wikiLoop] at hm; rw [hn] at hm; simp at hm
      rw [wikiEntriesChain] at hes; rw [hn] at hes; simp at hes
      obtain ⟨es2, hch, rfl⟩ := hes
      rw [List.foldl_append]
      exact ih (store l) _ m es2 hm hch

/-- Claim C6: whenever `explore_wikis` returns a mapping for a paginated
wiki collection, the mapping has one entry per distinct wiki name across
all visited pages (its keys are duplicate-free), and each name maps to
the content carried by the last occurrence of that name in the page
stream — later pages overwrite earlier ones. -/
theorem explore_wikis_last_write_wins
    (store : String → WikiPage) (fuel : Nat) (p0 : WikiPage)
    (m : List (String × String)) (es : List WikiEntry)
    (hm : explore_wikis store fuel p0 = some m)
    (hes : wikiEntriesChain store fuel p0 = some es) :
    (m.map Prod.fst).Nodup ∧ ∀ k, dictFind m k = lastContent es k := by
  have hfold := wikiLoop_chain store fuel p0 [] m es hm hes
  subst hfold
  constructor
  · exact keys_nodup_foldl es [] (by simp)
  · intro k
    rw [dictFind_foldl]
    cases lastContent es k <;> simp [dictFind]

/-- Claim C6 at the two-page fixture: the name `dup` occurs on both
pages and the returned mapping holds the second page's content for
it. -/
theorem explore_wikis_last_write_wins_witness :
    explore_wikis wikiStore 5 wikiPage1 =
      some [("dup", "second version"), ("solo", "solo content")] ∧
    dictFind [("dup", "second version"), ("solo", "solo content")] "dup" =
      some "second version" ∧
    lastContent [⟨"dup", "first version"⟩, ⟨"solo", "solo content"⟩,
        ⟨"dup", "second version"⟩] "dup" = some "second version" := by
  have h := explore_wikis_last_write_wins wikiStore 5 wikiPage1
      [("dup", "second version"), ("solo", "solo content")]
      [⟨"dup", "first version"⟩, ⟨"solo", "solo content"⟩, ⟨"dup", "second version"⟩]
      (by decide) (by decide)
  exact ⟨by decide, (h.2 "dup").trans (by decide), by decide⟩

/-- Claim C7 (counterexample): rendering a root `R` with one child, the
root's own first page opens with the parent banner lines — the parent
title and the `Main Project URL` reference for the root's URL — so the
banner is not confined to non-root pages. -/
theorem root_first_page_shows_banner_cex :
    (write_pdf 9 [rootProj "R" "uR", childProj "C" "uC"] 0).toOption.map
        (fun res => res.1.take 3) =
      some [Ev.addPage, Ev.parentTitleLine "R", Ev.mainProjectUrl "uR"] :=
  rfl

/-- Claim C7 (amended): when `write_pdf` renders a root together with
one child, the header banner — the root's title line and the
`Main Project URL` reference — appears on the root's own first page as
well as on the child's page; the child's page additionally carries its
own title line and a `Component URL` reference, both of which the root's
page omits (its title and URL are already shown by the banner). -/
theorem banner_on_root_and_child (tR uR tC uC : String)
    (h1 : tR ≠ "") (h2 : uR ≠ "") (h3 : tC ≠ tR) (h4 : uC ≠ "") (h5 : uC ≠ uR) :
    ∃ tr ps, write_pdf 9 [rootProj tR uR, childProj tC uC] 0 = Except.ok (tr, ps) ∧
      (pagesOf tr).length = 2 ∧
      Ev.parentTitleLine tR ∈ (pagesOf tr).getD 0 [] ∧
      Ev.mainProjectUrl uR ∈ (pagesOf tr).getD 0 [] ∧
      ((pagesOf tr).getD 0 []).all (fun e => !e.isComponentUrl) = true ∧
      Ev.parentTitleLine tR ∈ (pagesOf tr).getD 1 [] ∧
      Ev.mainProjectUrl uR ∈ (pagesOf tr).getD 1 [] ∧
      Ev.titleLine tC ∈ (pagesOf tr).getD 1 [] ∧
      Ev.componentUrl uC ∈ (pagesOf tr).getD 1 [] := by
  have h3' := Ne.symm h3
  have h5' := Ne.symm h5
  refine ⟨[Ev.addPage, Ev.parentTitleLine tR, Ev.mainProjectUrl uR, Ev.qr uR,
      Ev.sectionMetadata, Ev.metaLine "title" tR, Ev.metaLine "id" "r",
      Ev.sectionContributors, Ev.sectionFiles, Ev.noFiles, Ev.sectionWiki,
      Ev.addPage, Ev.parentTitleLine tR, Ev.mainProjectUrl uR, Ev.titleLine tC,
      Ev.qr uC, Ev.componentUrl uC, Ev.sectionMetadata, Ev.metaLine "title" tC,
      Ev.metaLine "id" "c", Ev.sectionContributors, Ev.sectionFiles, Ev.noFiles,
      Ev.sectionWiki],
    [⟨[("title", MetaVal.s tR), ("id", MetaVal.s "r")], [], [], [], ["c"]⟩,
     ⟨[("title", MetaVal.s tC), ("id", MetaVal.s "c")], [], [], [], []⟩],
    ?_, ?_, ?_, ?_, ?_, ?_, ?_, ?_, ?_⟩
  · simp [write_pdf, explore_project_tree, childLoop, write_project_body,
      rootProj, childProj, metaGetS, metaFindVal, metaRemove, findChildIdx,
      metaEvs, contribEvs, fileEvs, wikiEvs, List.find?, List.filter,
      Bind.bind, Except.bind, Pure.pure, Except.pure,
      h1, h2, h3, h3', h4, h5, h5']
  · rfl
  all_goals simp [pagesOf, pagesAux, Ev.isComponentUrl]

/-- Claim C7 (amended) at concrete titles and URLs. -/
theorem banner_on_root_and_child_witness :
    ∃ tr ps, write_pdf 9 [rootProj "R" "uR", childProj "C" "uC"] 0 = Except.ok (tr, ps) ∧
      (pagesOf tr).length = 2 ∧
      Ev.parentTitleLine "R" ∈ (pagesOf tr).getD 0 [] ∧
      Ev.mainProjectUrl "uR" ∈ (pagesOf tr).getD 0 [] ∧
      ((pagesOf tr).getD 0 []).all (fun e => !e.isComponentUrl) = true ∧
      Ev.parentTitleLine "R" ∈ (pagesOf tr).getD 1 [] ∧
      Ev.mainProjectUrl "uR" ∈ (pagesOf tr).getD 1 [] ∧
      Ev.titleLine "C" ∈ (pagesOf tr).getD 1 [] ∧
      Ev.componentUrl "uC" ∈ (pagesOf tr).getD 1 [] :=
  banner_on_root_and_child "R" "uR" "C" "uC"
    (by decide) (by decide) (by decide) (by decide) (by decide)

end OSFExport
